import Mathlib

/-!
Shallow embedding of the OPP-Equipment-Tracker pipeline
(`src/parse_equipment.py` and `src/api/main.py`).

Lines of a document are modelled as `List Char`.  Python floats are modelled
as exact rationals (every numeric token in scope is a decimal literal, so the
arithmetic `revenue - cost` is modelled exactly).  The regular expressions of
the source are embedded as deterministic functional matchers implementing
`re.search` semantics (leftmost start whose whole match succeeds, greedy
bounded repetitions with backtracking, lazy `.*?` gaps); determinism of each
token at a fixed position follows because every repeated character class of
the patterns is disjoint from the character that must follow it.
-/

set_option maxRecDepth 4000

abbrev Str := List Char

/-- Python `\d` (ASCII digits, as produced by the reports in scope). -/
def isDigitC (c : Char) : Bool := c.isDigit

/-- Python `\s`: space, tab, newline, carriage return, form feed, vertical tab. -/
def isSpaceC (c : Char) : Bool :=
  c = ' ' || c = '\t' || c = '\n' || c = '\r' || c = Char.ofNat 11 || c = Char.ofNat 12

/-- Python `\w` restricted to ASCII: alphanumeric or underscore. -/
def isWordC (c : Char) : Bool := c.isAlphanum || c = '_'

/-- The class `[\w\d-]` of the equipment-header pattern. -/
def isHdrWordC (c : Char) : Bool := isWordC c || c = '-'

/-- The class `[\d,]` of the cost/revenue tokens. -/
def isMoneyC (c : Char) : Bool := isDigitC c || c = ','

/-- Python `str.strip()`: remove leading and trailing whitespace. -/
def pythonStrip (s : Str) : Str :=
  ((s.dropWhile isSpaceC).reverse.dropWhile isSpaceC).reverse

/-- Comma stripping `.replace(',', '')` on the captured numeric tokens. -/
def stripCommas (s : Str) : Str := s.filter (fun c => c ≠ ',')

/-- Digits of a numeral to its value. -/
def digitsToNat (s : Str) : Nat :=
  s.foldl (fun acc c => acc * 10 + (c.toNat - '0'.toNat)) 0

/-- Subtraction on `ℚ` through `mkRat`, so that concrete runs evaluate by
kernel reduction (`Rat.sub` is `@[irreducible]`); `qSub_eq` below proves it
is exactly subtraction. -/
def qSub (a b : ℚ) : ℚ :=
  mkRat (a.num * b.den - b.num * a.den) (a.den * b.den)

theorem qSub_eq (a b : ℚ) : qSub a b = a - b := (Rat.sub_def' a b).symm

/-- Model of Python `float()` on the sign-less decimal strings that reach it
here (digits with at most one dot): `d*.d*` with at least one digit, or `d+`,
mapped to its exact decimal value.  Anything else (empty, lone dot, stray
characters, two dots) raises `ValueError`, modelled as `none`. -/
def parsePyFloat (s : Str) : Option ℚ :=
  if s.any (fun c => c = '.') then
    let ip := s.takeWhile (fun c => c ≠ '.')
    let fp := s.drop (ip.length + 1)
    if fp.any (fun c => c = '.') then none
    else if ip.all isDigitC && fp.all isDigitC && !(ip.isEmpty && fp.isEmpty) then
      some (mkRat (digitsToNat ip * 10 ^ fp.length + digitsToNat fp) (10 ^ fp.length))
    else none
  else if s.all isDigitC && !s.isEmpty then some (mkRat (digitsToNat s) 1) else none

/-! Token matchers for `data_row_pattern`.

`data_row_pattern = (\d{1,2}/\d{1,2}/\d{4}).*?(\d+\.\d{2}).*?([\d,]+\.\d{2}).*?([\d,]+\.\d{2})`
used with `re.search`.  Each matcher takes the suffix at a candidate position
and returns the captured token together with the rest of the line. -/

/-- Greedy `\d{1,2}` immediately followed by a character that terminates the
repetition: the greedy 2-then-1 backtracking collapses to: the digit run at
this position has length 1 or 2 and the next character is the required `/`
(a shorter split would put a digit where `/` must stand). -/
def matchD12 (s : Str) : Option (Str × Str) :=
  let run := s.takeWhile isDigitC
  if run.length = 0 || 3 ≤ run.length then none
  else
    match s.drop run.length with
    | '/' :: rest => some (run, rest)
    | _ => none

/-- Date token `\d{1,2}/\d{1,2}/\d{4}` at the current position (group 1). -/
def matchDateTok (s : Str) : Option (Str × Str) :=
  match matchD12 s with
  | none => none
  | some (m1, r1) =>
    match matchD12 r1 with
    | none => none
    | some (m2, r2) =>
      let y := r2.take 4
      if y.length = 4 && y.all isDigitC then
        some (m1 ++ '/' :: m2 ++ '/' :: y, r2.drop 4)
      else none

/-- Hours token `\d+\.\d{2}` at the current position (group 2): maximal digit run
(nonempty), a dot, exactly two digits. -/
def matchHoursTok (s : Str) : Option (Str × Str) :=
  let run := s.takeWhile isDigitC
  match s.drop run.length with
  | d :: a :: b :: rest =>
    if !run.isEmpty && d = '.' && isDigitC a && isDigitC b then
      some (run ++ d :: [a, b], rest)
    else none
  | _ => none

/-- Money token `[\d,]+\.\d{2}` at the current position (groups 3 and 4): maximal
digit-or-comma run (nonempty), a dot, exactly two digits. -/
def matchMoneyTok (s : Str) : Option (Str × Str) :=
  let run := s.takeWhile isMoneyC
  match s.drop run.length with
  | d :: a :: b :: rest =>
    if !run.isEmpty && d = '.' && isDigitC a && isDigitC b then
      some (run ++ d :: [a, b], rest)
    else none
  | _ => none

/-- Lazy `.*?([\d,]+\.\d{2})` with nothing after it: the earliest position
where the money token matches. -/
def findMoney : Str → Option (Str × Str)
  | [] => none
  | c :: t =>
    match matchMoneyTok (c :: t) with
    | some r => some r
    | none => findMoney t

/-- Lazy `.*?([\d,]+\.\d{2}).*?([\d,]+\.\d{2})`: earliest cost position whose
continuation (finding the revenue token) succeeds, with backtracking. -/
def findCostRev : Str → Option (Str × Str)
  | [] => none
  | c :: t =>
    match matchMoneyTok (c :: t) with
    | some (cap, rest) =>
      match findMoney rest with
      | some (cap2, _) => some (cap, cap2)
      | none => findCostRev t
    | none => findCostRev t

/-- Lazy search for the hours token followed by cost and revenue, with
backtracking over candidate hours positions. -/
def findHCR : Str → Option (Str × Str × Str)
  | [] => none
  | c :: t =>
    match matchHoursTok (c :: t) with
    | some (cap, rest) =>
      match findCostRev rest with
      | some (c2, c3) => some (cap, c2, c3)
      | none => findHCR t
    | none => findHCR t

/-- Search of `data_row_pattern` in a line: leftmost start where the date token
matches and the rest of the pattern succeeds; returns groups 1-4. -/
def searchDataRow : Str → Option (Str × Str × Str × Str)
  | [] => none
  | c :: t =>
    match matchDateTok (c :: t) with
    | some (dcap, rest) =>
      match findHCR rest with
      | some (g2, g3, g4) => some (dcap, g2, g3, g4)
      | none => searchDataRow t
    | none => searchDataRow t

/-! Header pattern `eq_header_pattern = Equipment:\s+([\w\d-]+)\s+-\s+(.+)`. -/

/-- Match the header pattern anchored at the current position.  The greedy
pieces are deterministic (word characters are never whitespace and vice
versa); the only genuine backtracking point is the final `\s+(.+)` when the
line ends in whitespace, where `.+` falls back to the last whitespace
character. -/
def matchEqHeaderAt (s : Str) : Option (Str × Str) :=
  if ("Equipment:".toList).isPrefixOf s then
    let r0 := s.drop 10
    let w1 := r0.takeWhile isSpaceC
    if w1.isEmpty then none
    else
      let r1 := r0.drop w1.length
      let g1 := r1.takeWhile isHdrWordC
      if g1.isEmpty then none
      else
        let r2 := r1.drop g1.length
        let w2 := r2.takeWhile isSpaceC
        if w2.isEmpty then none
        else
          match r2.drop w2.length with
          | '-' :: r3 =>
            let w3 := r3.takeWhile isSpaceC
            if w3.isEmpty then none
            else
              let r4 := r3.drop w3.length
              if r4.isEmpty then
                if 2 ≤ w3.length then some (g1, [w3.getLastD ' ']) else none
              else some (g1, r4)
          | _ => none
  else none

/-- Search of `eq_header_pattern` in a line. -/
def searchEqHeader : Str → Option (Str × Str)
  | [] => none
  | c :: t =>
    match matchEqHeaderAt (c :: t) with
    | some r => some r
    | none => searchEqHeader t

/-! In-memory extraction result (`parse_equipment_pdf`). -/

/-- One entry of an equipment's `usage_logs` list, as built by
`parse_equipment_pdf` (date kept in its raw `MM/DD/YYYY` capture,
`profit = revenue - cost` computed at parse time). -/
structure LogEntry where
  date : Str
  hours : ℚ
  cost : ℚ
  revenue : ℚ
  profit : ℚ
deriving DecidableEq

/-- One element of `extracted_data` (an equipment dict of the source). -/
structure EquipmentRec where
  equipment_id : Str
  name : Str
  usage_logs : List LogEntry
deriving DecidableEq

/-- Conversion `float(group.replace(',', ''))` applied to groups 2, 3, 4; `none` models
the `(ValueError, IndexError)` branch. -/
def parseNums (g2 g3 g4 : Str) : Option (ℚ × ℚ × ℚ) := do
  let h ← parsePyFloat (stripCommas g2)
  let c ← parsePyFloat (stripCommas g3)
  let r ← parsePyFloat (stripCommas g4)
  pure (h, c, r)

/-- The per-line loop of `parse_equipment_pdf` over the document's lines
(pages contribute their lines in order; a page without text contributes
none, and `current_equipment` persists across pages).  The accumulated
result is returned together with the number of times the
`except (ValueError, IndexError)` warning branch ran.  `cur` is
`current_equipment`; each equipment dict is appended to `extracted_data`
when its header is seen, and its `usage_logs` list is grown in place, so the
finished list is the headers in order of appearance. -/
def parseLinesAux : Option EquipmentRec → List Str → List EquipmentRec × Nat
  | cur, [] => (cur.toList, 0)
  | cur, l :: ls =>
    match searchEqHeader l with
    | some (g1, g2) =>
      let res := parseLinesAux (some ⟨pythonStrip g1, pythonStrip g2, []⟩) ls
      (cur.toList ++ res.1, res.2)
    | none =>
      match searchDataRow l with
      | some (d, g2, g3, g4) =>
        match cur with
        | some eqr =>
          match parseNums g2 g3 g4 with
          | some (h, c, r) =>
            parseLinesAux
              (some { eqr with usage_logs := eqr.usage_logs ++ [⟨d, h, c, r, qSub r c⟩] }) ls
          | none =>
            let res := parseLinesAux (some eqr) ls
            (res.1, res.2 + 1)
        | none => parseLinesAux cur ls
      | none => parseLinesAux cur ls

/-- Whole-document extraction `parse_equipment_pdf` on an opened document given as its lines:
returns (`extracted_data`, number of data-row warnings). -/
def parseLines (ls : List Str) : List EquipmentRec × Nat :=
  parseLinesAux none ls

/-! Database model.  The storage schema itself (tables, constraints) is not
under `src/`; everything below that is not a direct transcription of a SQL
statement in the source is marked `Modelled from the spec:`. -/

/-- One row of the `equipment` table
(`id surrogate PK, equipment_id unique text, name text`; the timestamp
columns play no role in any claim and are omitted). -/
structure EquipmentRow where
  id : Nat
  equipment_id : Str
  name : Str
deriving DecidableEq

/-- One row of the `usage_logs` table.

Modelled from the spec: the `usage_logs` schema is not under `src/`; per the
spec it stores `profit` per row with `profit = revenue - cost` for computed
entries, so the row carries a `profit` column. -/
structure UsageLogRow where
  equipment_id : Nat
  date : Str
  hours : ℚ
  cost : ℚ
  revenue : ℚ
  profit : ℚ
deriving DecidableEq

/-- The relational store. `nextId` is the surrogate-key sequence of
`equipment.id`. -/
structure DBState where
  equipment : List EquipmentRow
  usage_logs : List UsageLogRow
  nextId : Nat
deriving DecidableEq

/-- Lookup by the unique key `equipment_id`. -/
def findEquip (db : DBState) (eqid : Str) : Option EquipmentRow :=
  db.equipment.find? (fun r => decide (r.equipment_id = eqid))

/-- The equipment upsert of `insert_into_database`:
`INSERT INTO equipment (equipment_id, name) VALUES (%s, %s)
 ON CONFLICT (equipment_id) DO UPDATE SET name = EXCLUDED.name,
 updated_at = CURRENT_TIMESTAMP RETURNING id`. -/
def upsertEquipment (db : DBState) (eqid nm : Str) : DBState × Nat :=
  match findEquip db eqid with
  | some row =>
    ({ db with
        equipment := db.equipment.map
          (fun r => if r.equipment_id = eqid then { r with name := nm } else r) },
      row.id)
  | none =>
    ({ db with
        equipment := db.equipment ++ [⟨db.nextId, eqid, nm⟩],
        nextId := db.nextId + 1 },
      db.nextId)

/-- Duplicate-detection natural key of a usage log.

Modelled from the spec: the unique constraint behind `ON CONFLICT DO NOTHING`
is part of the schema, which is not under `src/`; the spec's natural key is
`(equipment_ref, date, hours, cost, revenue)`. -/
def keyMatchesB (r : UsageLogRow) (eid : Nat) (d : Str) (h c rv : ℚ) : Bool :=
  decide (r.equipment_id = eid) && decide (r.date = d) &&
    decide (r.hours = h) && decide (r.cost = c) && decide (r.revenue = rv)

/-- Whether the natural key is already present among the given rows. -/
def hasKey (logs : List UsageLogRow) (eid : Nat) (d : Str) (h c rv : ℚ) : Bool :=
  logs.any (fun r => keyMatchesB r eid d h c rv)

/-- The usage-log insert of `insert_into_database`:
`INSERT INTO usage_logs (equipment_id, date, hours, cost, revenue)
 VALUES (%s, %s, %s, %s, %s) ON CONFLICT DO NOTHING`; the returned `Bool`
is `cursor.rowcount > 0`.  The stored `profit` column is modelled from the
spec (see `UsageLogRow`). -/
def insertUsageLog (db : DBState) (eid : Nat) (d : Str) (h c rv : ℚ) :
    DBState × Bool :=
  if hasKey db.usage_logs eid d h c rv then (db, false)
  else
    ({ db with usage_logs := db.usage_logs ++ [⟨eid, d, h, c, rv, qSub rv c⟩] }, true)

/-- Python `str.split('/')`. -/
def splitSlash : Str → List Str
  | [] => [[]]
  | c :: t =>
    if c = '/' then [] :: splitSlash t
    else
      match splitSlash t with
      | h :: r => (c :: h) :: r
      | [] => [[c]]

/-- Python `str.zfill(2)` on the sign-less parts in scope. -/
def zfill2 (s : Str) : Str :=
  if s.length < 2 then List.replicate (2 - s.length) '0' ++ s else s

/-- The source's `format_date`: split on `/`, take parts 0/1/2 as
month/day/year, zero-fill month and day, and build `year-month-day`.
Only an `IndexError` (fewer than three parts) reaches the except branch;
no `ValueError` can occur, and no range validation is performed. -/
def formatDate (s : Str) : Option Str :=
  match splitSlash s with
  | p0 :: p1 :: p2 :: _ => some (p2 ++ '-' :: (zfill2 p0 ++ '-' :: zfill2 p1))
  | _ => none

/-! The loader `insert_into_database`.  Storage is an abstract dependency
that may fail on any call: `faults k = true` means the `k`-th storage call
(equipment upserts and usage-log inserts in execution order, then the final
commit) raises `psycopg2.Error`.  A fault on an upsert propagates to the
outer handler (`conn.rollback(); sys.exit(1)`); a fault on a usage-log
insert is caught by the inner handler (warn, `skipped_count += 1`,
`continue`); a fault on the commit propagates to the outer handler. -/

/-- Run-summary counters: `total_equipment`, `total_logs`, and the sum of
the per-equipment `skipped_count` counters. -/
structure LoadStats where
  totalEquipment : Nat
  totalLogs : Nat
  totalSkipped : Nat
deriving DecidableEq

/-- Outcome of `insert_into_database`: early return on empty data, a
committed load, or a rollback followed by `sys.exit(1)` (the carried state
is the store as the transaction left it, i.e. unchanged). -/
inductive LoadResult where
  | noData
  | committed (db : DBState) (stats : LoadStats)
  | rolledBack (db : DBState)
deriving DecidableEq

/-- The `for log in equipment['usage_logs']` loop.  Returns the next storage
call index, the store, `log_count`, and `skipped_count`. -/
def insertLogsLoop (faults : Nat → Bool) :
    Nat → DBState → Nat → List LogEntry → Nat × DBState × Nat × Nat
  | k, db, _, [] => (k, db, 0, 0)
  | k, db, eid, log :: rest =>
    match formatDate log.date with
    | none =>
      let r := insertLogsLoop faults k db eid rest
      (r.1, r.2.1, r.2.2.1, r.2.2.2 + 1)
    | some d =>
      if faults k then
        let r := insertLogsLoop faults (k + 1) db eid rest
        (r.1, r.2.1, r.2.2.1, r.2.2.2 + 1)
      else
        let ins := insertUsageLog db eid d log.hours log.cost log.revenue
        let r := insertLogsLoop faults (k + 1) ins.1 eid rest
        (r.1, r.2.1, r.2.2.1 + (if ins.2 then 1 else 0), r.2.2.2)

/-- The `for equipment in equipment_data` loop; `none` models a
`psycopg2.Error` escaping to the outer handler. -/
def insertEquipLoop (faults : Nat → Bool) :
    Nat → DBState → List EquipmentRec → Option (Nat × DBState × LoadStats)
  | k, db, [] => some (k, db, ⟨0, 0, 0⟩)
  | k, db, e :: rest =>
    if faults k then none
    else
      let up := upsertEquipment db e.equipment_id e.name
      let lr := insertLogsLoop faults (k + 1) up.1 up.2 e.usage_logs
      match insertEquipLoop faults lr.1 lr.2.1 rest with
      | none => none
      | some (k2, db3, st) =>
        some (k2, db3,
          ⟨st.totalEquipment + 1, st.totalLogs + lr.2.2.1, st.totalSkipped + lr.2.2.2⟩)

/-- `insert_into_database`: early return when there is no data; otherwise
run the transaction and commit, rolling everything back (and exiting 1) if a
`psycopg2.Error` reaches the outer handler from an upsert or from the final
commit. -/
def insertIntoDatabase (faults : Nat → Bool) (db0 : DBState)
    (data : List EquipmentRec) : LoadResult :=
  if data.isEmpty then .noData
  else
    match insertEquipLoop faults 0 db0 data with
    | none => .rolledBack db0
    | some (k, db, st) => if faults k then .rolledBack db0 else .committed db st

/-- A fault-free storage backend. -/
def noFaults : Nat → Bool := fun _ => false

/-! The API's write endpoint (`src/api/main.py`, `create_usage_log`). -/

/-- `POST /usage_logs`: check the equipment exists (else 404, modelled as
`none`), compute `profit = log.revenue - log.cost`, insert the row with the
profit column supplied explicitly, and return the new row. -/
def createUsageLog (db : DBState) (eid : Nat) (d : Str) (h c rv : ℚ) :
    Option (DBState × UsageLogRow) :=
  if db.equipment.any (fun r => decide (r.id = eid)) then
    let row : UsageLogRow := ⟨eid, d, h, c, rv, qSub rv c⟩
    some ({ db with usage_logs := db.usage_logs ++ [row] }, row)
  else none

/-! The `main` entry point of `parse_equipment.py`.  The file system is an
abstract map from path to an openable document's lines (`none` = missing
file); `verify_data` is read-only and does not affect any claim. -/

/-- Possible terminations of `main`, each carrying the resulting store. -/
inductive MainResult where
  | usageError (db : DBState)
  | fileNotFound (db : DBState)
  | noDataFound (db : DBState)
  | fatalDbError (db : DBState)
  | success (db : DBState) (stats : LoadStats)
deriving DecidableEq

/-- Process exit status of each termination: `sys.exit(1)` everywhere except
the successful fall-through of `main`. -/
def exitCode : MainResult → Nat
  | .success _ _ => 0
  | _ => 1

/-- The store a run terminated with. -/
def MainResult.db : MainResult → DBState
  | .usageError db => db
  | .fileNotFound db => db
  | .noDataFound db => db
  | .fatalDbError db => db
  | .success db _ => db

/-- `main`: `argv[1:]` is `args`; only the first element is ever consulted
(there is no `--dry-run` handling anywhere in the source).  The path is
checked for existence, the document is parsed, an empty extraction exits 1
with "No equipment data found", and otherwise the loader runs. -/
def mainRun (faults : Nat → Bool) (db0 : DBState) (args : List Str)
    (fs : Str → Option (List Str)) : MainResult :=
  match args with
  | [] => .usageError db0
  | path :: _ =>
    match fs path with
    | none => .fileNotFound db0
    | some lines =>
      let data := (parseLines lines).1
      if data.isEmpty then .noDataFound db0
      else
        match insertIntoDatabase faults db0 data with
        | .noData => .noDataFound db0
        | .rolledBack db => .fatalDbError db
        | .committed db st => .success db st

/-! Lemmas about the extraction loop. -/

/-- A line with no header match leaves a closed-section state unchanged:
whether or not it matches the data-row pattern, nothing is recorded and no
counter moves. -/
theorem parseAux_skip_line (l : Str) (ls : List Str) (h : searchEqHeader l = none) :
    parseLinesAux none (l :: ls) = parseLinesAux none ls := by
  cases hr : searchDataRow l <;> simp [parseLinesAux, h, hr]

/-- Data rows (and noise) before the first section header have no effect on
the extraction result: they are not attributed to any later section and no
counter or diagnostic records them. -/
theorem parseLines_orphan_front (pre ls : List Str)
    (h : ∀ l ∈ pre, searchEqHeader l = none) :
    parseLines (pre ++ ls) = parseLines ls := by
  induction pre with
  | nil => rfl
  | cons l t ih =>
    have hl : searchEqHeader l = none := h l (by simp)
    have ht : ∀ x ∈ t, searchEqHeader x = none := fun x hx => h x (by simp [hx])
    calc parseLines ((l :: t) ++ ls) = parseLinesAux none (t ++ ls) :=
          parseAux_skip_line l (t ++ ls) hl
      _ = parseLines ls := ih ht

/-- A document in which no line matches the header pattern extracts nothing:
no equipment, no usage logs, no warnings. -/
theorem parseLines_no_headers (ls : List Str)
    (h : ∀ l ∈ ls, searchEqHeader l = none) :
    parseLines ls = ([], 0) := by
  have := parseLines_orphan_front ls [] h
  simpa using this

/-- Every usage-log entry held by any equipment of any extraction result has
`profit = revenue - cost` (the parser computes it that way at append time). -/
theorem parseAux_profit (ls : List Str) :
    ∀ cur : Option EquipmentRec,
      (∀ e, cur = some e → ∀ log ∈ e.usage_logs, log.profit = log.revenue - log.cost) →
      ∀ eqr ∈ (parseLinesAux cur ls).1, ∀ log ∈ eqr.usage_logs,
        log.profit = log.revenue - log.cost := by
  induction ls with
  | nil =>
    intro cur hcur eqr hmem
    cases cur with
    | none => simp [parseLinesAux] at hmem
    | some e =>
      simp [parseLinesAux] at hmem
      subst hmem
      exact hcur _ rfl
  | cons l t ih =>
    intro cur hcur eqr hmem
    by_cases hh : ∃ g, searchEqHeader l = some g
    · obtain ⟨⟨g1, g2⟩, hg⟩ := hh
      simp only [parseLinesAux, hg] at hmem
      rcases List.mem_append.1 hmem with hc | hrec
      · cases cur with
        | none => simp at hc
        | some e =>
          simp at hc
          subst hc
          exact hcur _ rfl
      · exact ih _ (by rintro e he; simp at he; subst he; simp) eqr hrec
    · have hg : searchEqHeader l = none := by
        cases hs : searchEqHeader l with
        | none => rfl
        | some g => exact absurd ⟨g, hs⟩ hh
      cases hr : searchDataRow l with
      | none =>
        simp only [parseLinesAux, hg, hr] at hmem
        exact ih cur hcur eqr hmem
      | some q =>
        obtain ⟨d, g2, g3, g4⟩ := q
        cases cur with
        | none =>
          simp only [parseLinesAux, hg, hr] at hmem
          exact ih none hcur eqr hmem
        | some e =>
          cases hn : parseNums g2 g3 g4 with
          | none =>
            simp only [parseLinesAux, hg, hr, hn] at hmem
            exact ih (some e) hcur eqr hmem
          | some v =>
            obtain ⟨h, c, r⟩ := v
            simp only [parseLinesAux, hg, hr, hn] at hmem
            refine ih _ ?_ eqr hmem
            rintro e' he' log hlog
            simp at he'
            subst he'
            simp at hlog
            rcases hlog with hold | hnew
            · exact hcur e rfl log hold
            · subst hnew
              simpa using qSub_eq r c

/-! Lemmas about `format_date`. -/

/-- The except branch of `format_date` fires exactly when the input has
fewer than three `/`-separated fields (an `IndexError`); there is no range
validation of month or day. -/
theorem formatDate_eq_none_iff (s : Str) :
    formatDate s = none ↔ (splitSlash s).length < 3 := by
  rcases h : splitSlash s with _ | ⟨p0, _ | ⟨p1, _ | ⟨p2, r⟩⟩⟩ <;>
    simp [formatDate, h]

/-- With at least three fields, `format_date` rearranges them positionally
(zero-filling month and day) with no validation whatsoever. -/
theorem formatDate_positional (s : Str) (p0 p1 p2 : Str) (r : List Str)
    (h : splitSlash s = p0 :: p1 :: p2 :: r) :
    formatDate s = some (p2 ++ '-' :: (zfill2 p0 ++ '-' :: zfill2 p1)) := by
  simp [formatDate, h]

/-- A usage log whose raw date is rejected by `format_date` is skipped and
counted, and the loop continues with the remaining logs. -/
theorem logsLoop_skips_bad_date (faults : Nat → Bool) (k : Nat) (db : DBState)
    (eid : Nat) (log : LogEntry) (rest : List LogEntry)
    (h : formatDate log.date = none) :
    insertLogsLoop faults k db eid (log :: rest) =
      ((insertLogsLoop faults k db eid rest).1,
        (insertLogsLoop faults k db eid rest).2.1,
        (insertLogsLoop faults k db eid rest).2.2.1,
        (insertLogsLoop faults k db eid rest).2.2.2 + 1) := by
  simp [insertLogsLoop, h]

/-! Shape of the numeric captures: groups 2-4 of a successful data-row match
are always a (possibly comma-bearing) run, a dot, and two digits, so the
`float(...)` conversions in the parser cannot fail. -/

theorem takeWhile_append_stop (p : Char → Bool) (ds : Str) (x : Char) (r : Str)
    (hds : ∀ c ∈ ds, p c = true) (hx : p x = false) :
    (ds ++ x :: r).takeWhile p = ds := by
  induction ds with
  | nil => simp [List.takeWhile_cons, hx]
  | cons a t ih =>
    have ha : p a = true := hds a (by simp)
    have ht : ∀ c ∈ t, p c = true := fun c hc => hds c (by simp [hc])
    simp [List.takeWhile_cons, ha, ih ht]

theorem drop_len_succ_append (ds : Str) (x : Char) (r : Str) :
    (ds ++ x :: r).drop (ds.length + 1) = r := by
  induction ds with
  | nil => simp
  | cons a t ih =>
    simp only [List.cons_append, List.length_cons, List.drop_succ_cons]
    exact ih

/-- Shape of a captured numeric token over the character class `p`. -/
def TokShape (p : Char → Bool) (cap : Str) : Prop :=
  ∃ ds a b, cap = ds ++ '.' :: [a, b] ∧ (∀ c ∈ ds, p c = true) ∧
    isDigitC a = true ∧ isDigitC b = true

theorem matchHoursTok_shape {s cap rest : Str}
    (h : matchHoursTok s = some (cap, rest)) : TokShape isDigitC cap := by
  simp only [matchHoursTok] at h
  rcases hd : s.drop (s.takeWhile isDigitC).length with _ | ⟨d, _ | ⟨a, _ | ⟨b, r⟩⟩⟩ <;>
      rw [hd] at h
  · exact absurd h (by simp)
  · exact absurd h (by simp)
  · exact absurd h (by simp)
  · have h' :
        (if (!(s.takeWhile isDigitC).isEmpty && decide (d = '.') && isDigitC a && isDigitC b) = true
          then some (s.takeWhile isDigitC ++ d :: [a, b], r) else none) = some (cap, rest) := h
    by_cases hcond :
        (!(s.takeWhile isDigitC).isEmpty && decide (d = '.') && isDigitC a && isDigitC b) = true
    · rw [if_pos hcond] at h'
      rw [Bool.and_eq_true, Bool.and_eq_true, Bool.and_eq_true] at hcond
      obtain ⟨⟨⟨hne, hdot⟩, ha⟩, hb⟩ := hcond
      have hdeq : d = '.' := by simpa using hdot
      have hpair := Option.some.inj h'
      have hcap : s.takeWhile isDigitC ++ d :: [a, b] = cap := congrArg Prod.fst hpair
      refine ⟨s.takeWhile isDigitC, a, b, ?_, fun c hc => List.mem_takeWhile_imp hc, ha, hb⟩
      rw [← hcap, hdeq]
    · rw [if_neg hcond] at h'
      exact absurd h' (by simp)

theorem matchMoneyTok_shape {s cap rest : Str}
    (h : matchMoneyTok s = some (cap, rest)) : TokShape isMoneyC cap := by
  simp only [matchMoneyTok] at h
  rcases hd : s.drop (s.takeWhile isMoneyC).length with _ | ⟨d, _ | ⟨a, _ | ⟨b, r⟩⟩⟩ <;>
      rw [hd] at h
  · exact absurd h (by simp)
  · exact absurd h (by simp)
  · exact absurd h (by simp)
  · have h' :
        (if (!(s.takeWhile isMoneyC).isEmpty && decide (d = '.') && isDigitC a && isDigitC b) = true
          then some (s.takeWhile isMoneyC ++ d :: [a, b], r) else none) = some (cap, rest) := h
    by_cases hcond :
        (!(s.takeWhile isMoneyC).isEmpty && decide (d = '.') && isDigitC a && isDigitC b) = true
    · rw [if_pos hcond] at h'
      rw [Bool.and_eq_true, Bool.and_eq_true, Bool.and_eq_true] at hcond
      obtain ⟨⟨⟨hne, hdot⟩, ha⟩, hb⟩ := hcond
      have hdeq : d = '.' := by simpa using hdot
      have hpair := Option.some.inj h'
      have hcap : s.takeWhile isMoneyC ++ d :: [a, b] = cap := congrArg Prod.fst hpair
      refine ⟨s.takeWhile isMoneyC, a, b, ?_, fun c hc => List.mem_takeWhile_imp hc, ha, hb⟩
      rw [← hcap, hdeq]
    · rw [if_neg hcond] at h'
      exact absurd h' (by simp)

theorem findMoney_shape {s cap rest : Str}
    (h : findMoney s = some (cap, rest)) : TokShape isMoneyC cap := by
  induction s with
  | nil => simp [findMoney] at h
  | cons c t ih =>
    cases hm : matchMoneyTok (c :: t) with
    | some pr =>
      obtain ⟨cap0, rest0⟩ := pr
      simp only [findMoney, hm, Option.some.injEq, Prod.mk.injEq] at h
      obtain ⟨h1, h2⟩ := h
      subst h1
      exact matchMoneyTok_shape hm
    | none =>
      simp only [findMoney, hm] at h
      exact ih h

theorem findCostRev_shape {s : Str} {g3 g4 : Str}
    (h : findCostRev s = some (g3, g4)) :
    TokShape isMoneyC g3 ∧ TokShape isMoneyC g4 := by
  induction s with
  | nil => simp [findCostRev] at h
  | cons c t ih =>
    cases hm : matchMoneyTok (c :: t) with
    | some pr =>
      obtain ⟨cap, rest⟩ := pr
      cases hf : findMoney rest with
      | some pr2 =>
        obtain ⟨cap2, rest2⟩ := pr2
        simp only [findCostRev, hm, hf, Option.some.injEq, Prod.mk.injEq] at h
        obtain ⟨h1, h2⟩ := h
        subst h1
        subst h2
        exact ⟨matchMoneyTok_shape hm, findMoney_shape hf⟩
      | none =>
        simp only [findCostRev, hm, hf] at h
        exact ih h
    | none =>
      simp only [findCostRev, hm] at h
      exact ih h

theorem findHCR_shape {s : Str} {g2 g3 g4 : Str}
    (h : findHCR s = some (g2, g3, g4)) :
    TokShape isDigitC g2 ∧ TokShape isMoneyC g3 ∧ TokShape isMoneyC g4 := by
  induction s with
  | nil => simp [findHCR] at h
  | cons c t ih =>
    cases hm : matchHoursTok (c :: t) with
    | some pr =>
      obtain ⟨cap, rest⟩ := pr
      cases hf : findCostRev rest with
      | some pr2 =>
        obtain ⟨c2, c3⟩ := pr2
        simp only [findHCR, hm, hf, Option.some.injEq, Prod.mk.injEq] at h
        obtain ⟨h1, h2, h3⟩ := h
        subst h1
        subst h2
        subst h3
        exact ⟨matchHoursTok_shape hm, (findCostRev_shape hf).1, (findCostRev_shape hf).2⟩
      | none =>
        simp only [findHCR, hm, hf] at h
        exact ih h
    | none =>
      simp only [findHCR, hm] at h
      exact ih h

theorem searchDataRow_shape {s : Str} {d g2 g3 g4 : Str}
    (h : searchDataRow s = some (d, g2, g3, g4)) :
    TokShape isDigitC g2 ∧ TokShape isMoneyC g3 ∧ TokShape isMoneyC g4 := by
  induction s with
  | nil => simp [searchDataRow] at h
  | cons c t ih =>
    cases hm : matchDateTok (c :: t) with
    | some pr =>
      obtain ⟨dcap, rest⟩ := pr
      cases hf : findHCR rest with
      | some pr2 =>
        obtain ⟨h2, h3, h4⟩ := pr2
        simp only [searchDataRow, hm, hf, Option.some.injEq, Prod.mk.injEq] at h
        obtain ⟨hd1, hg2, hg3, hg4⟩ := h
        subst hg2
        subst hg3
        subst hg4
        exact findHCR_shape hf
      | none =>
        simp only [searchDataRow, hm, hf] at h
        exact ih h
    | none =>
      simp only [searchDataRow, hm] at h
      exact ih h

/-- Digits are in the money class. -/
theorem isMoneyC_of_isDigitC {c : Char} (h : isDigitC c = true) : isMoneyC c = true := by
  simp [isMoneyC, h]

/-- A comma is not a digit; digits survive comma-stripping. -/
theorem isDigitC_ne_comma {c : Char} (h : isDigitC c = true) : c ≠ ',' := by
  intro hc
  subst hc
  simp [isDigitC] at h

/-- On any captured token's comma-stripped text, the modelled `float()`
succeeds: the fractional part always carries exactly two digits, so even a
comma-only integer part (stripped to nothing) parses. -/
theorem parsePyFloat_token (ds : Str) (a b : Char)
    (hds : ∀ c ∈ ds, isMoneyC c = true)
    (ha : isDigitC a = true) (hb : isDigitC b = true) :
    (parsePyFloat (stripCommas (ds ++ '.' :: [a, b]))).isSome := by
  have hstrip : stripCommas (ds ++ '.' :: [a, b]) =
      stripCommas ds ++ '.' :: [a, b] := by
    simp only [stripCommas, List.filter_append]
    congr 1
    simp [List.filter_cons, isDigitC_ne_comma ha, isDigitC_ne_comma hb]
  have hdigits : ∀ c ∈ stripCommas ds, isDigitC c = true := by
    intro c hc
    simp only [stripCommas, List.mem_filter] at hc
    obtain ⟨hmem, hne⟩ := hc
    have := hds c hmem
    simp only [isMoneyC, Bool.or_eq_true] at this
    rcases this with hdig | hcomma
    · exact hdig
    · exfalso
      simp at hne hcomma
      exact hne hcomma
  rw [hstrip]
  have hadot : a ≠ '.' := by
    intro hc; subst hc; exact absurd ha (by decide)
  have hbdot : b ≠ '.' := by
    intro hc; subst hc; exact absurd hb (by decide)
  have hddot : ∀ c ∈ stripCommas ds, c ≠ '.' := by
    intro c hc hceq
    subst hceq
    exact absurd (hdigits _ hc) (by decide)
  have hany : (stripCommas ds ++ '.' :: [a, b]).any (fun c => decide (c = '.')) = true := by
    simp
  have htake : (stripCommas ds ++ '.' :: [a, b]).takeWhile (fun c => decide (c ≠ '.')) =
      stripCommas ds :=
    takeWhile_append_stop _ _ _ _ (fun c hc => by simpa using hddot c hc) (by simp)
  have hdrop : (stripCommas ds ++ '.' :: [a, b]).drop ((stripCommas ds).length + 1) = [a, b] :=
    drop_len_succ_append _ _ _
  have hfpdot : ([a, b].any (fun c => decide (c = '.'))) = false := by
    simp [hadot, hbdot]
  have hall : (stripCommas ds).all isDigitC = true :=
    List.all_eq_true.2 (fun c hc => hdigits c hc)
  simp only [parsePyFloat, hany, if_true, htake, hdrop, hfpdot, Bool.false_eq_true,
    if_false, hall, List.all_cons, List.all_nil, ha, hb, Bool.and_true, Bool.true_and,
    List.isEmpty_cons, Bool.and_false, Bool.not_false, Option.isSome_some]

/-- For every line on which the data-row pattern matches, all three numeric
conversions succeed: the `except (ValueError, IndexError)` branch of the
data-row handler is unreachable. -/
theorem parseNums_of_searchDataRow {l d g2 g3 g4 : Str}
    (h : searchDataRow l = some (d, g2, g3, g4)) :
    ∃ v, parseNums g2 g3 g4 = some v := by
  obtain ⟨sh2, sh3, sh4⟩ := searchDataRow_shape h
  obtain ⟨ds2, a2, b2, he2, hm2, ha2, hb2⟩ := sh2
  obtain ⟨ds3, a3, b3, he3, hm3, ha3, hb3⟩ := sh3
  obtain ⟨ds4, a4, b4, he4, hm4, ha4, hb4⟩ := sh4
  have p2 : (parsePyFloat (stripCommas g2)).isSome := by
    rw [he2]
    exact parsePyFloat_token ds2 a2 b2
      (fun c hc => isMoneyC_of_isDigitC (hm2 c hc)) ha2 hb2
  have p3 : (parsePyFloat (stripCommas g3)).isSome := by
    rw [he3]
    exact parsePyFloat_token ds3 a3 b3 hm3 ha3 hb3
  have p4 : (parsePyFloat (stripCommas g4)).isSome := by
    rw [he4]
    exact parsePyFloat_token ds4 a4 b4 hm4 ha4 hb4
  obtain ⟨v2, hv2⟩ := Option.isSome_iff_exists.1 p2
  obtain ⟨v3, hv3⟩ := Option.isSome_iff_exists.1 p3
  obtain ⟨v4, hv4⟩ := Option.isSome_iff_exists.1 p4
  exact ⟨(v2, v3, v4), by simp [parseNums, hv2, hv3, hv4]⟩

/-- The parser's data-row warning counter is zero on every document: the
numeric-conversion failure branch never runs. -/
theorem parseAux_warnings_zero (ls : List Str) :
    ∀ cur : Option EquipmentRec, (parseLinesAux cur ls).2 = 0 := by
  induction ls with
  | nil => intro cur; simp [parseLinesAux]
  | cons l t ih =>
    intro cur
    cases hg : searchEqHeader l with
    | some g =>
      obtain ⟨g1, g2⟩ := g
      simp only [parseLinesAux, hg]
      exact ih _
    | none =>
      cases hr : searchDataRow l with
      | none => simp only [parseLinesAux, hg, hr]; exact ih cur
      | some q =>
        obtain ⟨d, g2, g3, g4⟩ := q
        cases cur with
        | none => simp only [parseLinesAux, hg, hr]; exact ih none
        | some e =>
          obtain ⟨v, hv⟩ := parseNums_of_searchDataRow hr
          simp only [parseLinesAux, hg, hr, hv]
          obtain ⟨vh, vc, vr⟩ := v
          exact ih _

/-! Store-level lemmas: the upsert, the idempotent log insert, and the
invariants they maintain. -/

/-- The duplicate-detection natural key of a stored row. -/
def keyOf (r : UsageLogRow) : Nat × Str × ℚ × ℚ × ℚ :=
  (r.equipment_id, r.date, r.hours, r.cost, r.revenue)

/-- No two stored usage logs share the natural key. -/
def KeysNodup (logs : List UsageLogRow) : Prop := (logs.map keyOf).Nodup

theorem keyMatchesB_iff (r : UsageLogRow) (eid : Nat) (d : Str) (h c rv : ℚ) :
    keyMatchesB r eid d h c rv = true ↔ keyOf r = (eid, d, h, c, rv) := by
  simp [keyMatchesB, keyOf, Prod.ext_iff, and_assoc]

theorem hasKey_iff (logs : List UsageLogRow) (eid : Nat) (d : Str) (h c rv : ℚ) :
    hasKey logs eid d h c rv = true ↔ (eid, d, h, c, rv) ∈ logs.map keyOf := by
  simp only [hasKey, List.any_eq_true, keyMatchesB_iff, List.mem_map]

theorem hasKey_append_left {logs app : List UsageLogRow} {eid d h c rv}
    (hk : hasKey logs eid d h c rv = true) :
    hasKey (logs ++ app) eid d h c rv = true := by
  simp only [hasKey, List.any_append, Bool.or_eq_true]
  exact Or.inl hk

theorem insertUsageLog_present {db : DBState} {eid d h c rv}
    (hk : hasKey db.usage_logs eid d h c rv = true) :
    insertUsageLog db eid d h c rv = (db, false) := by
  simp [insertUsageLog, hk]

theorem insertUsageLog_absent {db : DBState} {eid d h c rv}
    (hk : hasKey db.usage_logs eid d h c rv = false) :
    insertUsageLog db eid d h c rv =
      ({ db with usage_logs := db.usage_logs ++ [⟨eid, d, h, c, rv, qSub rv c⟩] },
        true) := by
  simp [insertUsageLog, hk]

/-- The log insert keeps the natural keys duplicate-free: it only appends a
key that is absent. -/
theorem insertUsageLog_keysNodup {db : DBState} {eid d h c rv}
    (hn : KeysNodup db.usage_logs) :
    KeysNodup (insertUsageLog db eid d h c rv).1.usage_logs := by
  cases hk : hasKey db.usage_logs eid d h c rv with
  | true => rw [insertUsageLog_present hk]; exact hn
  | false =>
    rw [insertUsageLog_absent hk]
    have hmem : (eid, d, h, c, rv) ∉ db.usage_logs.map keyOf := by
      intro hm
      rw [← hasKey_iff] at hm
      rw [hm] at hk
      simp at hk
    simp only [KeysNodup, List.map_append, List.map_cons, List.map_nil]
    rw [List.nodup_append]
    refine ⟨hn, List.nodup_singleton _, ?_⟩
    intro x hx hy
    simp only [List.mem_singleton] at hy
    subst hy
    exact hmem hx

/-- The equipment upsert when the key exists: name-only rewrite of the
matching rows, returning the stored surrogate id. -/
theorem upsertEquipment_found {db : DBState} {eqid nm : Str} {row : EquipmentRow}
    (h : findEquip db eqid = some row) :
    upsertEquipment db eqid nm =
      ({ db with
          equipment := db.equipment.map
            (fun r => if r.equipment_id = eqid then { r with name := nm } else r) },
        row.id) := by
  simp [upsertEquipment, h]

/-- The equipment upsert when the key is new: append a fresh row and return
the fresh surrogate id. -/
theorem upsertEquipment_not_found {db : DBState} {eqid nm : Str}
    (h : findEquip db eqid = none) :
    upsertEquipment db eqid nm =
      ({ db with
          equipment := db.equipment ++ [⟨db.nextId, eqid, nm⟩],
          nextId := db.nextId + 1 },
        db.nextId) := by
  simp [upsertEquipment, h]

/-- The name rewrite of the found-branch changes neither `id` nor
`equipment_id` of any row; `findEquip` results keep their ids. -/
theorem findEquip_map_name (db : DBState) (eqid nm q : Str) :
    findEquip
      { db with
        equipment := db.equipment.map
          (fun r => if r.equipment_id = eqid then { r with name := nm } else r) } q =
    (findEquip db q).map
      (fun r => if r.equipment_id = eqid then { r with name := nm } else r) := by
  simp only [findEquip, List.find?_map]
  have hp : ((fun r : EquipmentRow => decide (r.equipment_id = q)) ∘
      fun r => if r.equipment_id = eqid then { r with name := nm } else r) =
      fun r : EquipmentRow => decide (r.equipment_id = q) := by
    funext r
    by_cases h : r.equipment_id = eqid <;> simp [h, Function.comp]
  rw [hp]

/-- Lookup of an existing key is unaffected by appending a row at the end. -/
theorem findEquip_append {db : DBState} {x : EquipmentRow} {q : Str} {r : EquipmentRow}
    (h : findEquip db q = some r) :
    findEquip { db with equipment := db.equipment ++ [x], nextId := db.nextId + 1 } q =
      some r := by
  simp only [findEquip] at h ⊢
  rw [List.find?_append, h]
  rfl

/-- Appending a row whose key was absent makes it findable. -/
theorem findEquip_append_self {db : DBState} {q nm : Str}
    (h : findEquip db q = none) :
    findEquip
      { db with equipment := db.equipment ++ [⟨db.nextId, q, nm⟩], nextId := db.nextId + 1 } q =
      some ⟨db.nextId, q, nm⟩ := by
  simp only [findEquip] at h ⊢
  rw [List.find?_append, h]
  simp

theorem hasKey_append_self (logs : List UsageLogRow) (eid d h c rv p) :
    hasKey (logs ++ [⟨eid, d, h, c, rv, p⟩]) eid d h c rv = true := by
  simp [hasKey, List.any_append, keyMatchesB]

theorem findEquip_eq_of_equipment {db db' : DBState}
    (h : db'.equipment = db.equipment) (q : Str) : findEquip db' q = findEquip db q := by
  simp [findEquip, h]

theorem updName_id (eqid nm : Str) (r : EquipmentRow) :
    ((if r.equipment_id = eqid then { r with name := nm } else r) : EquipmentRow).id
      = r.id := by
  split <;> rfl

/-- Structural facts about one equipment's log loop, under any fault
schedule: the equipment table and the id sequence are untouched; usage-log
rows are only appended, each appended row belonging to the given equipment
and carrying `profit = revenue - cost`. -/
theorem insertLogsLoop_spec (faults : Nat → Bool) (logs : List LogEntry) :
    ∀ k db eid,
      (insertLogsLoop faults k db eid logs).2.1.equipment = db.equipment ∧
      (insertLogsLoop faults k db eid logs).2.1.nextId = db.nextId ∧
      ∃ app, (insertLogsLoop faults k db eid logs).2.1.usage_logs = db.usage_logs ++ app ∧
        ∀ row ∈ app, row.equipment_id = eid ∧ row.profit = row.revenue - row.cost := by
  induction logs with
  | nil =>
    intro k db eid
    exact ⟨rfl, rfl, [], by simp [insertLogsLoop], by simp⟩
  | cons log rest ih =>
    intro k db eid
    cases hd : formatDate log.date with
    | none =>
      simp only [insertLogsLoop, hd]
      exact ih k db eid
    | some d =>
      cases hf : faults k with
      | true =>
        simp only [insertLogsLoop, hd, hf, if_true]
        exact ih (k + 1) db eid
      | false =>
        simp only [insertLogsLoop, hd, hf, Bool.false_eq_true, if_false]
        cases hk : hasKey db.usage_logs eid d log.hours log.cost log.revenue with
        | true =>
          rw [insertUsageLog_present hk]
          exact ih (k + 1) db eid
        | false =>
          rw [insertUsageLog_absent hk]
          obtain ⟨he, hn, app', happ', hrows⟩ :=
            ih (k + 1)
              { db with usage_logs := db.usage_logs ++
                  [⟨eid, d, log.hours, log.cost, log.revenue, qSub log.revenue log.cost⟩] }
              eid
          refine ⟨he, hn,
            ⟨eid, d, log.hours, log.cost, log.revenue, qSub log.revenue log.cost⟩ :: app',
            ?_, ?_⟩
          · rw [happ']
            simp
          · intro row hrow
            rcases List.mem_cons.1 hrow with hr0 | hr
            · subst hr0
              exact ⟨rfl, by simpa using qSub_eq log.revenue log.cost⟩
            · exact hrows row hr

/-- After the log loop, every valid-date log of the list is present in the
store under the given equipment id. -/
theorem insertLogsLoop_saturates (logs : List LogEntry) :
    ∀ k db eid, ∀ log ∈ logs, ∀ d, formatDate log.date = some d →
      hasKey (insertLogsLoop noFaults k db eid logs).2.1.usage_logs eid d
        log.hours log.cost log.revenue = true := by
  induction logs with
  | nil => intro k db eid log h; simp at h
  | cons l0 rest ih =>
    intro k db eid log hmem d hd
    rcases List.mem_cons.1 hmem with hl0 | hr
    · subst hl0
      simp only [insertLogsLoop, hd, noFaults, Bool.false_eq_true, if_false]
      cases hk : hasKey db.usage_logs eid d log.hours log.cost log.revenue with
      | true =>
        rw [insertUsageLog_present hk]
        obtain ⟨-, -, app, happ, -⟩ := insertLogsLoop_spec noFaults rest (k + 1) db eid
        rw [happ]
        exact hasKey_append_left hk
      | false =>
        rw [insertUsageLog_absent hk]
        obtain ⟨-, -, app, happ, -⟩ :=
          insertLogsLoop_spec noFaults rest (k + 1)
            { db with usage_logs := db.usage_logs ++
                [⟨eid, d, log.hours, log.cost, log.revenue, qSub log.revenue log.cost⟩] }
            eid
        rw [happ]
        exact hasKey_append_left (hasKey_append_self _ _ _ _ _ _ _)
    · cases hd0 : formatDate l0.date with
      | none =>
        simp only [insertLogsLoop, hd0]
        exact ih k db eid log hr d hd
      | some d0 =>
        simp only [insertLogsLoop, hd0, noFaults, Bool.false_eq_true, if_false]
        exact ih (k + 1) _ eid log hr d hd

/-- When every valid-date log is already stored, the log loop is a complete
no-op on the store: nothing inserted, nothing counted as skipped beyond
invalid dates. -/
theorem insertLogsLoop_noop (logs : List LogEntry) :
    ∀ k db eid,
      (∀ log ∈ logs, ∀ d, formatDate log.date = some d →
        hasKey db.usage_logs eid d log.hours log.cost log.revenue = true) →
      ∃ k' s, insertLogsLoop noFaults k db eid logs = (k', db, 0, s) := by
  induction logs with
  | nil =>
    intro k db eid _
    exact ⟨k, 0, by simp [insertLogsLoop]⟩
  | cons l0 rest ih =>
    intro k db eid h
    cases hd : formatDate l0.date with
    | none =>
      obtain ⟨k', s, hres⟩ := ih k db eid (fun log hl => h log (List.mem_cons_of_mem _ hl))
      exact ⟨k', s + 1, by simp only [insertLogsLoop, hd, hres]⟩
    | some d =>
      have hk := h l0 (List.mem_cons_self _ _) d hd
      obtain ⟨k', s, hres⟩ := ih (k + 1) db eid (fun log hl => h log (List.mem_cons_of_mem _ hl))
      refine ⟨k', s, ?_⟩
      simp only [insertLogsLoop, hd, noFaults, Bool.false_eq_true, if_false,
        insertUsageLog_present hk, hres]

/-- The log loop preserves freedom from duplicate natural keys. -/
theorem insertLogsLoop_keysNodup (faults : Nat → Bool) (logs : List LogEntry) :
    ∀ k db eid, KeysNodup db.usage_logs →
      KeysNodup (insertLogsLoop faults k db eid logs).2.1.usage_logs := by
  induction logs with
  | nil => intro k db eid h; simpa [insertLogsLoop] using h
  | cons l0 rest ih =>
    intro k db eid h
    cases hd : formatDate l0.date with
    | none =>
      simp only [insertLogsLoop, hd]
      exact ih k db eid h
    | some d =>
      cases hf : faults k with
      | true =>
        simp only [insertLogsLoop, hd, hf, if_true]
        exact ih (k + 1) db eid h
      | false =>
        simp only [insertLogsLoop, hd, hf, Bool.false_eq_true, if_false]
        exact ih (k + 1) _ eid (insertUsageLog_keysNodup h)

/-- The upsert leaves the usage-log table unchanged in both branches. -/
theorem upsertEquipment_logs (db : DBState) (eqid nm : Str) :
    (upsertEquipment db eqid nm).1.usage_logs = db.usage_logs := by
  cases h : findEquip db eqid with
  | none => rw [upsertEquipment_not_found h]
  | some r => rw [upsertEquipment_found h]

/-- Unified contract of the upsert: the log table is untouched, the upserted
key is findable afterwards with the returned id, and every previously
findable key keeps its id. -/
theorem upsertEquipment_spec (db : DBState) (eqid nm : Str) :
    ∃ db1 eid, upsertEquipment db eqid nm = (db1, eid) ∧
      db1.usage_logs = db.usage_logs ∧
      (∃ row, findEquip db1 eqid = some row ∧ row.id = eid) ∧
      (∀ q r, findEquip db q = some r → ∃ r', findEquip db1 q = some r' ∧ r'.id = r.id) := by
  cases hfe : findEquip db eqid with
  | some r0 =>
    refine ⟨_, r0.id, upsertEquipment_found hfe, rfl, ?_, ?_⟩
    · refine ⟨_, ?_, updName_id eqid nm r0⟩
      rw [findEquip_map_name, hfe]
      rfl
    · intro q r h
      refine ⟨_, ?_, updName_id eqid nm r⟩
      rw [findEquip_map_name, h]
      rfl
  | none =>
    refine ⟨_, db.nextId, upsertEquipment_not_found hfe, rfl, ?_, ?_⟩
    · exact ⟨⟨db.nextId, eqid, nm⟩, findEquip_append_self hfe, rfl⟩
    · intro q r h
      exact ⟨r, findEquip_append h, rfl⟩

/-- Saturation of the store with respect to a document: every equipment of
the document is findable by its external key, and each of its valid-date
usage logs is present under that equipment's stored surrogate id. -/
def Saturated (db : DBState) (data : List EquipmentRec) : Prop :=
  ∀ e ∈ data, ∃ row, findEquip db e.equipment_id = some row ∧
    ∀ log ∈ e.usage_logs, ∀ d, formatDate log.date = some d →
      hasKey db.usage_logs row.id d log.hours log.cost log.revenue = true

/-- After a fault-free load starting anywhere, the equipment loop succeeds
and leaves the store saturated: every document equipment is findable, its
valid-date logs all present under its stored id; previously findable keys
keep their ids, and usage logs are only appended. -/
theorem insertEquipLoop_saturates (data : List EquipmentRec) :
    ∀ k db, ∃ k' db' st,
      insertEquipLoop noFaults k db data = some (k', db', st) ∧
      (∀ q r, findEquip db q = some r → ∃ r', findEquip db' q = some r' ∧ r'.id = r.id) ∧
      (∃ app, db'.usage_logs = db.usage_logs ++ app) ∧
      Saturated db' data := by
  induction data with
  | nil =>
    intro k db
    refine ⟨k, db, ⟨0, 0, 0⟩, by simp [insertEquipLoop], ?_, ⟨[], by simp⟩, ?_⟩
    · intro q r h
      exact ⟨r, h, rfl⟩
    · intro e he
      simp at he
  | cons e rest ih =>
    intro k db
    obtain ⟨db1, eidE, hup, hlog1, ⟨rowE, hfindE, hidE⟩, hstab1⟩ :=
      upsertEquipment_spec db e.equipment_id e.name
    obtain ⟨heq2, hnext2, app1, happ1, -⟩ :=
      insertLogsLoop_spec noFaults e.usage_logs (k + 1) db1 eidE
    have hsatlogs := insertLogsLoop_saturates e.usage_logs (k + 1) db1 eidE
    obtain ⟨k2, db3, st, hrun, hstab3, ⟨app2, happ2⟩, hsat3⟩ :=
      ih (insertLogsLoop noFaults (k + 1) db1 eidE e.usage_logs).1
        (insertLogsLoop noFaults (k + 1) db1 eidE e.usage_logs).2.1
    refine ⟨k2, db3,
      ⟨st.totalEquipment + 1,
        st.totalLogs + (insertLogsLoop noFaults (k + 1) db1 eidE e.usage_logs).2.2.1,
        st.totalSkipped + (insertLogsLoop noFaults (k + 1) db1 eidE e.usage_logs).2.2.2⟩,
      ?_, ?_, ?_, ?_⟩
    · simp only [insertEquipLoop, noFaults, Bool.false_eq_true, if_false, hup]
      rw [hrun]
    · intro q r h
      obtain ⟨r1, h1, hid1⟩ := hstab1 q r h
      have h2 : findEquip (insertLogsLoop noFaults (k + 1) db1 eidE e.usage_logs).2.1 q =
          some r1 := by
        rw [findEquip_eq_of_equipment heq2]
        exact h1
      obtain ⟨r3, h3, hid3⟩ := hstab3 q r1 h2
      exact ⟨r3, h3, by rw [hid3, hid1]⟩
    · refine ⟨app1 ++ app2, ?_⟩
      rw [happ2, happ1, hlog1, List.append_assoc]
    · intro e' he'
      rcases List.mem_cons.1 he' with he0 | hr
      · subst he0
        have hfind2 : findEquip (insertLogsLoop noFaults (k + 1) db1 eidE
            e'.usage_logs).2.1 e'.equipment_id = some rowE := by
          rw [findEquip_eq_of_equipment heq2]
          exact hfindE
        obtain ⟨r3, h3, hid3⟩ := hstab3 _ rowE hfind2
        refine ⟨r3, h3, ?_⟩
        intro log hl d hd
        have hk2 := hsatlogs log hl d hd
        rw [happ2, hid3, hidE]
        exact hasKey_append_left hk2
      · exact hsat3 e' hr

/-- Running the equipment loop over data whose content is already saturated
in the store is a no-op on the usage-log table, on the number of equipment
rows, and on the id sequence (only names are rewritten). -/
theorem insertEquipLoop_noop (data : List EquipmentRec) :
    ∀ k db, Saturated db data →
      ∃ k' db' st, insertEquipLoop noFaults k db data = some (k', db', st) ∧
        db'.usage_logs = db.usage_logs ∧
        db'.equipment.length = db.equipment.length ∧
        db'.nextId = db.nextId := by
  induction data with
  | nil =>
    intro k db _
    exact ⟨k, db, ⟨0, 0, 0⟩, by simp [insertEquipLoop], rfl, rfl, rfl⟩
  | cons e rest ih =>
    intro k db hsat
    obtain ⟨rowE, hfe, hkeys⟩ := hsat e (List.mem_cons_self _ _)
    have hup := @upsertEquipment_found db e.equipment_id e.name rowE hfe
    have hkeys1 : ∀ log ∈ e.usage_logs, ∀ d, formatDate log.date = some d →
        hasKey ({ db with
            equipment := db.equipment.map (fun r =>
              if r.equipment_id = e.equipment_id then { r with name := e.name } else r)
          } : DBState).usage_logs rowE.id d log.hours log.cost log.revenue = true :=
      fun log hl d hd => hkeys log hl d hd
    obtain ⟨k1, s1, hlr⟩ :=
      insertLogsLoop_noop e.usage_logs (k + 1)
        { db with
          equipment := db.equipment.map (fun r =>
            if r.equipment_id = e.equipment_id then { r with name := e.name } else r) }
        rowE.id hkeys1
    have hsat1 : Saturated
        { db with
          equipment := db.equipment.map (fun r =>
            if r.equipment_id = e.equipment_id then { r with name := e.name } else r) }
        rest := by
      intro e' he'
      obtain ⟨row', hfe', hkeys'⟩ := hsat e' (List.mem_cons_of_mem _ he')
      refine ⟨if row'.equipment_id = e.equipment_id then { row' with name := e.name }
          else row', ?_, ?_⟩
      · rw [findEquip_map_name, hfe']
        rfl
      · intro log hl d hd
        rw [updName_id]
        exact hkeys' log hl d hd
    obtain ⟨k3, db3, st3, hrun, hl3, hlen3, hn3⟩ := ih k1 _ hsat1
    refine ⟨k3, db3,
      ⟨st3.totalEquipment + 1, st3.totalLogs + 0, st3.totalSkipped + s1⟩, ?_, ?_, ?_, ?_⟩
    · simp only [insertEquipLoop, noFaults, Bool.false_eq_true, if_false, hup]
      rw [hlr, hrun]
    · rw [hl3]
    · rw [hlen3]
      simp
    · rw [hn3]

/-- The whole equipment loop preserves freedom from duplicate natural keys,
under any fault schedule. -/
theorem insertEquipLoop_keysNodup (faults : Nat → Bool) (data : List EquipmentRec) :
    ∀ k db k' db' st, insertEquipLoop faults k db data = some (k', db', st) →
      KeysNodup db.usage_logs → KeysNodup db'.usage_logs := by
  induction data with
  | nil =>
    intro k db k' db' st h hn
    have h' : some (k, db, (⟨0, 0, 0⟩ : LoadStats)) = some (k', db', st) := h
    simp only [Option.some.injEq, Prod.mk.injEq] at h'
    obtain ⟨-, h2, -⟩ := h'
    rw [← h2]
    exact hn
  | cons e rest ih =>
    intro k db k' db' st h hn
    cases hf : faults k with
    | true => simp [insertEquipLoop, hf] at h
    | false =>
      simp only [insertEquipLoop, hf, Bool.false_eq_true, if_false] at h
      cases hrec : insertEquipLoop faults
          (insertLogsLoop faults (k + 1) (upsertEquipment db e.equipment_id e.name).1
            (upsertEquipment db e.equipment_id e.name).2 e.usage_logs).1
          (insertLogsLoop faults (k + 1) (upsertEquipment db e.equipment_id e.name).1
            (upsertEquipment db e.equipment_id e.name).2 e.usage_logs).2.1 rest with
      | none => rw [hrec] at h; simp at h
      | some tr =>
        obtain ⟨k2, db3, st3⟩ := tr
        rw [hrec] at h
        simp only [Option.some.injEq, Prod.mk.injEq] at h
        obtain ⟨-, hdb, -⟩ := h
        rw [← hdb]
        have hn1 : KeysNodup (upsertEquipment db e.equipment_id e.name).1.usage_logs := by
          rw [upsertEquipment_logs]
          exact hn
        have hn2 := insertLogsLoop_keysNodup faults e.usage_logs (k + 1)
          (upsertEquipment db e.equipment_id e.name).1
          (upsertEquipment db e.equipment_id e.name).2 hn1
        exact ih _ _ _ _ _ hrec hn2

/-- Under any fault schedule, a completed equipment loop only appends
usage-log rows, and every appended row carries `profit = revenue - cost`. -/
theorem insertEquipLoop_appends (faults : Nat → Bool) (data : List EquipmentRec) :
    ∀ k db k' db' st, insertEquipLoop faults k db data = some (k', db', st) →
      ∃ app, db'.usage_logs = db.usage_logs ++ app ∧
        ∀ row ∈ app, row.profit = row.revenue - row.cost := by
  induction data with
  | nil =>
    intro k db k' db' st h
    have h' : some (k, db, (⟨0, 0, 0⟩ : LoadStats)) = some (k', db', st) := h
    simp only [Option.some.injEq, Prod.mk.injEq] at h'
    obtain ⟨-, h2, -⟩ := h'
    rw [← h2]
    exact ⟨[], by simp, by simp⟩
  | cons e rest ih =>
    intro k db k' db' st h
    cases hf : faults k with
    | true => simp [insertEquipLoop, hf] at h
    | false =>
      simp only [insertEquipLoop, hf, Bool.false_eq_true, if_false] at h
      cases hrec : insertEquipLoop faults
          (insertLogsLoop faults (k + 1) (upsertEquipment db e.equipment_id e.name).1
            (upsertEquipment db e.equipment_id e.name).2 e.usage_logs).1
          (insertLogsLoop faults (k + 1) (upsertEquipment db e.equipment_id e.name).1
            (upsertEquipment db e.equipment_id e.name).2 e.usage_logs).2.1 rest with
      | none => rw [hrec] at h; simp at h
      | some tr =>
        obtain ⟨k2, db3, st3⟩ := tr
        rw [hrec] at h
        simp only [Option.some.injEq, Prod.mk.injEq] at h
        obtain ⟨-, hdb, -⟩ := h
        rw [← hdb]
        obtain ⟨-, -, app1, happ1, hrows1⟩ :=
          insertLogsLoop_spec faults e.usage_logs (k + 1)
            (upsertEquipment db e.equipment_id e.name).1
            (upsertEquipment db e.equipment_id e.name).2
        obtain ⟨app2, happ2, hrows2⟩ := ih _ _ _ _ _ hrec
        refine ⟨app1 ++ app2, ?_, ?_⟩
        · rw [happ2, happ1, upsertEquipment_logs, List.append_assoc]
        · intro row hrow
          rcases List.mem_append.1 hrow with h1 | h2
          · exact (hrows1 row h1).2
          · exact hrows2 row h2

/-! Concrete material for witnesses and counterexamples. -/

/-- An apostrophe (the one in the demo equipment name). -/
def apos : Char := Char.ofNat 39

/-- The display name of the demo equipment. -/
def truckName : Str := "Int".toList ++ [apos] ++ "l 2275 Dump Truck".toList

/-- The spec's concrete header line. -/
def hdrLine : Str := "Equipment: 10125-DL - ".toList ++ truckName

/-- The spec's concrete data-row line. -/
def rowLine : Str := "01/15/2024   8.50   120.00   450.00".toList

/-- The spec's concrete two-line document. -/
def demoDoc : List Str := [hdrLine, rowLine]

/-- An empty store whose surrogate sequence starts at 1. -/
def emptyDB : DBState := ⟨[], [], 1⟩

/-- The in-memory usage log extracted from `rowLine` (8.50 = 17/2). -/
def demoLogEntry : LogEntry := ⟨"01/15/2024".toList, mkRat 17 2, 120, 450, mkRat 330 1⟩

/-- The in-memory equipment record extracted from `demoDoc`. -/
def demoEquipRec : EquipmentRec := ⟨"10125-DL".toList, truckName, [demoLogEntry]⟩

/-- The stored equipment row after loading `demoDoc` into `emptyDB`. -/
def demoEquipRow : EquipmentRow := ⟨1, "10125-DL".toList, truckName⟩

/-- The stored usage-log row after loading `demoDoc` into `emptyDB`. -/
def demoLogRow : UsageLogRow := ⟨1, "2024-01-15".toList, mkRat 17 2, 120, 450, mkRat 330 1⟩

/-- The store after loading `demoDoc` into `emptyDB`. -/
def demoDB : DBState := ⟨[demoEquipRow], [demoLogRow], 2⟩

/-- A file system holding only the demo document at `report.pdf`. -/
def demoFs : Str → Option (List Str) :=
  fun p => if p = "report.pdf".toList then some demoDoc else none

/-- A file system holding a document whose only line is an orphan data row. -/
def orphanFs : Str → Option (List Str) :=
  fun p => if p = "orphan.pdf".toList then some [rowLine] else none

/-- A second usage log (for the fault-injection scenario). -/
def log2Entry : LogEntry := ⟨"01/16/2024".toList, 2, 100, 300, mkRat 200 1⟩

/-- One equipment with two usage logs. -/
def twoLogRec : EquipmentRec := ⟨"10125-DL".toList, truckName, [demoLogEntry, log2Entry]⟩

/-- A fault schedule where exactly the second storage call (the first
usage-log insert) raises. -/
def faultAt1 : Nat → Bool := fun k => k == 1

/-! The claims. -/

/-- C1: for every data row that passes recognition and normalization, the
usage-log record that ends up in storage has `profit = revenue - cost`:
(1) every entry of the in-memory extraction result satisfies it; (2) the API
insert path stores exactly `revenue - cost` and the stored row is in the
table; (3) every row a committed load adds to the store satisfies it (the
stored profit column being modelled from the spec). -/
theorem claim_C1 :
    (∀ ls : List Str, ∀ eqr ∈ (parseLines ls).1, ∀ log ∈ eqr.usage_logs,
        log.profit = log.revenue - log.cost) ∧
    (∀ db eid d h c rv db' row, createUsageLog db eid d h c rv = some (db', row) →
        row.profit = rv - c ∧ row ∈ db'.usage_logs) ∧
    (∀ faults db0 data db st, insertIntoDatabase faults db0 data = .committed db st →
        ∀ row ∈ db.usage_logs, row ∈ db0.usage_logs ∨
          row.profit = row.revenue - row.cost) := by
  refine ⟨?_, ?_, ?_⟩
  · intro ls
    exact parseAux_profit ls none (fun e he => Option.noConfusion he)
  · intro db eid d h c rv db' row hc
    unfold createUsageLog at hc
    split at hc
    · simp only [Option.some.injEq, Prod.mk.injEq] at hc
      obtain ⟨hdb, hrow⟩ := hc
      constructor
      · rw [← hrow]
        exact qSub_eq rv c
      · rw [← hdb, ← hrow]
        simp
    · exact Option.noConfusion hc
  · intro faults db0 data db st h row hrow
    unfold insertIntoDatabase at h
    split at h
    · cases h
    · cases hloop : insertEquipLoop faults 0 db0 data with
      | none => rw [hloop] at h; cases h
      | some tr =>
        obtain ⟨k, db1, st1⟩ := tr
        rw [hloop] at h
        have h' : (if faults k = true then LoadResult.rolledBack db0
            else LoadResult.committed db1 st1) = LoadResult.committed db st := h
        by_cases hfk : faults k = true
        · rw [if_pos hfk] at h'
          cases h'
        · rw [if_neg hfk] at h'
          cases h'
          obtain ⟨app, happ, hprofit⟩ := insertEquipLoop_appends faults data 0 db0 _ _ _ hloop
          rw [happ] at hrow
          rcases List.mem_append.1 hrow with h1 | h2
          · exact Or.inl h1
          · exact Or.inr (hprofit row h2)

/-- Witness for C1 at concrete inputs: the parsed demo entry, a concrete API
insert, and the demo load. -/
theorem claim_C1_witness :
    demoLogEntry.profit = demoLogEntry.revenue - demoLogEntry.cost ∧
    (∃ row, createUsageLog demoDB 1 ("2024-02-01".toList) 1 2 5 =
        some ({ demoDB with usage_logs := demoDB.usage_logs ++ [row] }, row) ∧
      row.profit = 5 - 2) := by
  constructor
  · exact claim_C1.1 demoDoc demoEquipRec (by decide) demoLogEntry (by decide)
  · have happ := claim_C1.2.1 demoDB 1 ("2024-02-01".toList) 1 2 5
      { demoDB with usage_logs :=
          demoDB.usage_logs ++ [⟨1, "2024-02-01".toList, 1, 2, 5, qSub 5 2⟩] }
      ⟨1, "2024-02-01".toList, 1, 2, 5, qSub 5 2⟩ (by decide)
    exact ⟨⟨1, "2024-02-01".toList, 1, 2, 5, qSub 5 2⟩, by decide, happ.1⟩

/-- Inversion of a committed load. -/
theorem insertIntoDatabase_committed {faults : Nat → Bool} {db0 : DBState}
    {data : List EquipmentRec} {db : DBState} {st : LoadStats}
    (h : insertIntoDatabase faults db0 data = .committed db st) :
    data.isEmpty = false ∧
    ∃ k, insertEquipLoop faults 0 db0 data = some (k, db, st) ∧ faults k = false := by
  unfold insertIntoDatabase at h
  split at h
  · cases h
  · rename_i hne
    cases hloop : insertEquipLoop faults 0 db0 data with
    | none => rw [hloop] at h; cases h
    | some tr =>
      obtain ⟨k, db1, st1⟩ := tr
      rw [hloop] at h
      have h' : (if faults k = true then LoadResult.rolledBack db0
          else LoadResult.committed db1 st1) = LoadResult.committed db st := h
      by_cases hfk : faults k = true
      · rw [if_pos hfk] at h'
        cases h'
      · rw [if_neg hfk] at h'
        simp only [LoadResult.committed.injEq] at h'
        obtain ⟨hdb, hst⟩ := h'
        subst hdb
        subst hst
        exact ⟨by simpa using hne, k, rfl, by simpa using hfk⟩

/-- Introduction of a committed load. -/
theorem insertIntoDatabase_committed_of {faults : Nat → Bool} {db0 : DBState}
    {data : List EquipmentRec} {k : Nat} {db : DBState} {st : LoadStats}
    (hne : data.isEmpty = false)
    (hloop : insertEquipLoop faults 0 db0 data = some (k, db, st))
    (hfk : faults k = false) :
    insertIntoDatabase faults db0 data = .committed db st := by
  simp only [insertIntoDatabase, hne, Bool.false_eq_true, if_false, hloop, hfk]

/-- C2: re-running the loader on an unchanged extraction result is
idempotent: the second run commits, the equipment table keeps its row count,
the usage-log table is unchanged as a list (so its row count is unchanged),
and no duplicate usage logs exist afterwards.  The duplicate-detection
unique constraint is modelled from the spec (natural key
equipment/date/hours/cost/revenue); name-only updates and timestamps are the
only effects of the second run. -/
theorem claim_C2 (db0 : DBState) (data : List EquipmentRec) (db1 : DBState)
    (st1 : LoadStats) (hkeys : KeysNodup db0.usage_logs)
    (h1 : insertIntoDatabase noFaults db0 data = .committed db1 st1) :
    ∃ db2 st2, insertIntoDatabase noFaults db1 data = .committed db2 st2 ∧
      db2.equipment.length = db1.equipment.length ∧
      db2.usage_logs = db1.usage_logs ∧
      KeysNodup db2.usage_logs := by
  obtain ⟨hne, k, hloop, -⟩ := insertIntoDatabase_committed h1
  obtain ⟨k', db', st', hrun', -, -, hsat'⟩ := insertEquipLoop_saturates data 0 db0
  rw [hloop] at hrun'
  simp only [Option.some.injEq, Prod.mk.injEq] at hrun'
  obtain ⟨-, hdb', -⟩ := hrun'
  rw [← hdb'] at hsat'
  have hnodup1 : KeysNodup db1.usage_logs :=
    insertEquipLoop_keysNodup noFaults data 0 db0 _ _ _ hloop hkeys
  obtain ⟨k2, db2, st2, hrun2, hl2, hlen2, -⟩ := insertEquipLoop_noop data 0 db1 hsat'
  refine ⟨db2, st2, insertIntoDatabase_committed_of hne hrun2 rfl, hlen2, hl2, ?_⟩
  rw [hl2]
  exact hnodup1

/-- Witness for C2: loading the demo document into an empty store commits,
and the theorem applies to that run. -/
theorem claim_C2_witness :
    KeysNodup emptyDB.usage_logs ∧
    insertIntoDatabase noFaults emptyDB [demoEquipRec] = .committed demoDB ⟨1, 1, 0⟩ ∧
    (∃ db2 st2, insertIntoDatabase noFaults demoDB [demoEquipRec] = .committed db2 st2 ∧
      db2.equipment.length = demoDB.equipment.length ∧
      db2.usage_logs = demoDB.usage_logs ∧
      KeysNodup db2.usage_logs) := by
  refine ⟨?_, by decide, ?_⟩
  · simp [KeysNodup, emptyDB]
  · exact claim_C2 emptyDB [demoEquipRec] demoDB ⟨1, 1, 0⟩
      (by simp [KeysNodup, emptyDB]) (by decide)

/-- Counterexample to C3 as stated: the impossible date `13/45/2024` is not
rejected by `format_date`; it is accepted and rearranged to `2024-13-45`. -/
theorem claim_C3_counterexample :
    formatDate "13/45/2024".toList = some "2024-13-45".toList ∧
    formatDate "13/45/2024".toList ≠ none := by
  constructor
  · decide
  · decide

/-- C3 (amended): `format_date` rejects exactly the strings with fewer than
three `/`-separated fields (the `IndexError` path); any string with three or
more fields — whatever its month/day values — is accepted positionally as
`parts[2]-parts[0]-parts[1]` with zero-filling and no range validation.
A row whose date is rejected is skipped, counted, and the loop continues. -/
theorem claim_C3 :
    (∀ s : Str, formatDate s = none ↔ (splitSlash s).length < 3) ∧
    (∀ s p0 p1 p2 r, splitSlash s = p0 :: p1 :: p2 :: r →
      formatDate s = some (p2 ++ '-' :: (zfill2 p0 ++ '-' :: zfill2 p1))) ∧
    (∀ faults k db eid log rest, formatDate log.date = none →
      insertLogsLoop faults k db eid (log :: rest) =
        ((insertLogsLoop faults k db eid rest).1,
          (insertLogsLoop faults k db eid rest).2.1,
          (insertLogsLoop faults k db eid rest).2.2.1,
          (insertLogsLoop faults k db eid rest).2.2.2 + 1)) :=
  ⟨formatDate_eq_none_iff,
    fun s p0 p1 p2 r h => formatDate_positional s p0 p1 p2 r h,
    fun faults k db eid log rest h => logsLoop_skips_bad_date faults k db eid log rest h⟩

/-- Witness for C3 at concrete inputs: positional acceptance of `13/45/2024`
and the skip-and-count behaviour on a dateless row. -/
theorem claim_C3_witness :
    formatDate "13/45/2024".toList =
      some ("2024".toList ++ '-' :: (zfill2 "13".toList ++ '-' :: zfill2 "45".toList)) ∧
    insertLogsLoop noFaults 0 emptyDB 1 [⟨"nodate".toList, 1, 2, 3, 1⟩] =
      (0, emptyDB, 0, 0 + 1) := by
  constructor
  · exact claim_C3.2.1 ("13/45/2024".toList) ("13".toList) ("45".toList) ("2024".toList) []
      (by decide)
  · have h := claim_C3.2.2 noFaults 0 emptyDB 1 ⟨"nodate".toList, 1, 2, 3, 1⟩ []
      (by decide)
    rw [h]
    decide

/-- Counterexample to C4 as stated: there is no dry-run mode; with
`--dry-run` present in the arguments, a run still issues mutating storage
calls (the store gains an equipment row and a usage-log row). -/
theorem claim_C4_counterexample :
    mainRun noFaults emptyDB ["report.pdf".toList, "--dry-run".toList] demoFs =
      .success demoDB ⟨1, 1, 0⟩ ∧
    demoDB.usage_logs ≠ emptyDB.usage_logs := by
  constructor
  · decide
  · decide

/-- C4 (amended): the program has no `--dry-run` handling: only the first
argument is ever consulted (any further arguments are ignored, so a trailing
flag changes nothing), and a leading `--dry-run` is simply treated as the
document path, failing file lookup. -/
theorem claim_C4 :
    (∀ faults db0 fs (p : Str) (rest : List Str),
      mainRun faults db0 (p :: rest) fs = mainRun faults db0 [p] fs) ∧
    (∀ faults db0 fs (rest : List Str), fs ("--dry-run".toList) = none →
      mainRun faults db0 ("--dry-run".toList :: rest) fs = .fileNotFound db0) := by
  constructor
  · intro faults db0 fs p rest
    rfl
  · intro faults db0 fs rest h
    have h' : fs ['-', '-', 'd', 'r', 'y', '-', 'r', 'u', 'n'] = none := h
    simp [mainRun, h']

/-- Witness for C4: a leading `--dry-run` under the demo file system is
taken for a missing file. -/
theorem claim_C4_witness :
    demoFs ("--dry-run".toList) = none ∧
    mainRun noFaults emptyDB ["--dry-run".toList] demoFs = .fileNotFound emptyDB :=
  ⟨by decide, claim_C4.2 noFaults emptyDB demoFs [] (by decide)⟩

/-- Counterexample to C5 as stated: a document with no recognizable section
header does terminate as "no data found", but with exit status 1 — the same
non-zero status used for fatal errors — not with a success status. -/
theorem claim_C5_counterexample :
    mainRun noFaults emptyDB ["orphan.pdf".toList] orphanFs = .noDataFound emptyDB ∧
    exitCode (.noDataFound emptyDB) = 1 ∧
    exitCode (.fatalDbError emptyDB) = 1 ∧
    (parseLines [rowLine]).1 = [] := by
  refine ⟨by decide, rfl, rfl, by decide⟩

/-- C5 (amended): for every document in which no line is recognized as a
section header, the run produces zero Equipment and zero UsageLogEntry
records, prints the no-data message, leaves the store untouched — and exits
with status 1, the same non-zero status fatal errors use. -/
theorem claim_C5 (faults : Nat → Bool) (db0 : DBState) (fs : Str → Option (List Str))
    (path : Str) (rest : List Str) (lines : List Str)
    (hfs : fs path = some lines)
    (hnh : ∀ l ∈ lines, searchEqHeader l = none) :
    (parseLines lines).1 = [] ∧
    mainRun faults db0 (path :: rest) fs = .noDataFound db0 ∧
    exitCode (mainRun faults db0 (path :: rest) fs) = 1 := by
  have hp := parseLines_no_headers lines hnh
  have h1 : (parseLines lines).1 = [] := by rw [hp]
  have h2 : mainRun faults db0 (path :: rest) fs = .noDataFound db0 := by
    simp [mainRun, hfs, h1]
  exact ⟨h1, h2, by rw [h2]; rfl⟩

/-- Witness for C5: the orphan document. -/
theorem claim_C5_witness :
    (parseLines [rowLine]).1 = [] ∧
    mainRun noFaults emptyDB ["orphan.pdf".toList] orphanFs = .noDataFound emptyDB ∧
    exitCode (mainRun noFaults emptyDB ["orphan.pdf".toList] orphanFs) = 1 :=
  claim_C5 noFaults emptyDB orphanFs ("orphan.pdf".toList) [] [rowLine]
    (by decide) (by decide)

/-- Counterexample to C6 as stated: an orphan data row is dropped, but it is
not counted or logged anywhere — the line matches the data-row pattern, yet
the extraction result is empty and the parser's only rejection counter (the
data-row warning counter) stays 0; nothing records the orphan. -/
theorem claim_C6_counterexample :
    (searchDataRow rowLine).isSome = true ∧
    parseLines [rowLine] = ([], 0) := by
  constructor
  · decide
  · decide

/-- C6 (amended): every data row encountered before any section header is
dropped silently — removing such a prefix changes nothing about the
extraction result or its counters, so the row is never attributed to any
(prior or subsequent) equipment and is not counted anywhere. -/
theorem claim_C6 (pre ls : List Str) (h : ∀ l ∈ pre, searchEqHeader l = none) :
    parseLines (pre ++ ls) = parseLines ls ∧ parseLines pre = ([], 0) :=
  ⟨parseLines_orphan_front pre ls h, parseLines_no_headers pre h⟩

/-- Witness for C6: an orphan row in front of the demo document. -/
theorem claim_C6_witness :
    parseLines ([rowLine] ++ demoDoc) = parseLines demoDoc ∧
    parseLines [rowLine] = ([], 0) :=
  claim_C6 [rowLine] demoDoc (by decide)

/-- Counterexample to C7 as stated: loading a usage log whose natural key is
already stored is a no-op, but the occurrence is not counted as "skipped":
the run summary reports 1 equipment, 0 logs inserted and 0 skipped — the
duplicate is simply left out of every counter. -/
theorem claim_C7_counterexample :
    hasKey demoDB.usage_logs 1 ("2024-01-15".toList) (mkRat 17 2) 120 450 = true ∧
    insertIntoDatabase noFaults demoDB [demoEquipRec] = .committed demoDB ⟨1, 0, 0⟩ := by
  constructor
  · decide
  · decide

/-- C7 (amended): inserting a usage log whose duplicate-detection natural
key already exists is a no-op, not an error — the store is unchanged, no row
is created (`rowcount = 0`) — and the occurrence is not counted at all: it
neither enters the inserted counter nor the skipped counter (which counts
only invalid dates and storage errors). -/
theorem claim_C7 :
    (∀ db eid d h c rv, hasKey db.usage_logs eid d h c rv = true →
      insertUsageLog db eid d h c rv = (db, false)) ∧
    (∀ k db eid (log : LogEntry) d, formatDate log.date = some d →
      hasKey db.usage_logs eid d log.hours log.cost log.revenue = true →
      insertLogsLoop noFaults k db eid [log] = (k + 1, db, 0, 0)) := by
  constructor
  · intro db eid d h c rv hk
    exact insertUsageLog_present hk
  · intro k db eid log d hd hk
    simp only [insertLogsLoop, hd, noFaults, Bool.false_eq_true, if_false,
      insertUsageLog_present hk]

/-- Witness for C7: the demo duplicate. -/
theorem claim_C7_witness :
    insertUsageLog demoDB 1 ("2024-01-15".toList) (mkRat 17 2) 120 450 = (demoDB, false) ∧
    insertLogsLoop noFaults 5 demoDB 1 [demoLogEntry] = (6, demoDB, 0, 0) :=
  ⟨claim_C7.1 demoDB 1 ("2024-01-15".toList) (mkRat 17 2) 120 450 (by decide),
    claim_C7.2 5 demoDB 1 demoLogEntry ("2024-01-15".toList) (by decide) (by decide)⟩

/-- Counterexample to C8 as stated: a storage-level error during the load
transaction does not always roll everything back.  With a fault on the first
usage-log insert (storage call 1), the run still commits: the equipment row
and the second log are stored, the faulted log is merely counted as skipped
— a partially loaded document is committed. -/
theorem claim_C8_counterexample :
    faultAt1 1 = true ∧
    insertIntoDatabase faultAt1 emptyDB [twoLogRec] =
      .committed ⟨[demoEquipRow], [⟨1, "2024-01-16".toList, 2, 100, 300, mkRat 200 1⟩], 2⟩
        ⟨1, 1, 1⟩ := by
  constructor
  · decide
  · decide

/-- C8 (amended): a `psycopg2.Error` on an equipment upsert (in particular
the very first storage call) escapes to the outer handler, which rolls back
the whole document and exits 1 with the store exactly as before the load; an
error on an individual usage-log insert, by contrast, is caught by the inner
handler, counted as skipped, and the remaining changes are still committed. -/
theorem claim_C8 :
    (∀ faults db0 data, data ≠ [] → faults 0 = true →
      insertIntoDatabase faults db0 data = .rolledBack db0) ∧
    (∀ db0 (e : EquipmentRec) (log : LogEntry) d, e.usage_logs = [log] →
      formatDate log.date = some d →
      insertIntoDatabase (fun k => k == 1) db0 [e] =
        .committed (upsertEquipment db0 e.equipment_id e.name).1 ⟨1, 0, 1⟩) := by
  constructor
  · intro faults db0 data hne hf
    cases data with
    | nil => exact absurd rfl hne
    | cons e rest => simp [insertIntoDatabase, insertEquipLoop, hf]
  · intro db0 e log d he hd
    simp [insertIntoDatabase, insertEquipLoop, insertLogsLoop, he, hd]

/-- Witness for C8: the first storage call faulting rolls the demo load
back wholesale, and a fault on a single-log insert is skipped and committed. -/
theorem claim_C8_witness :
    insertIntoDatabase (fun _ => true) demoDB [demoEquipRec] = .rolledBack demoDB ∧
    insertIntoDatabase (fun k => k == 1) emptyDB [demoEquipRec] =
      .committed (upsertEquipment emptyDB demoEquipRec.equipment_id demoEquipRec.name).1
        ⟨1, 0, 1⟩ :=
  ⟨claim_C8.1 (fun _ => true) demoDB [demoEquipRec] (by decide) rfl,
    claim_C8.2 emptyDB demoEquipRec demoLogEntry ("2024-01-15".toList) rfl (by decide)⟩

/-- C9: the concrete scenario of the spec.  The header line opens a section
with `equipment_id = "10125-DL"` and the full dash-joined name; the data row
becomes its single usage log with hours 8.50 (= 17/2), cost 120, revenue
450, profit 330 (= revenue - cost); its date normalizes to `2024-01-15`, and
loading the extraction result stores exactly that row attributed to the
equipment's surrogate id. -/
theorem claim_C9 :
    parseLines demoDoc = ([⟨"10125-DL".toList, truckName, [demoLogEntry]⟩], 0) ∧
    demoLogEntry.hours = mkRat 17 2 ∧ mkRat 17 2 = (17 : ℚ) / 2 ∧
    demoLogEntry.profit = demoLogEntry.revenue - demoLogEntry.cost ∧
    demoLogEntry.profit = 330 ∧
    formatDate demoLogEntry.date = some ("2024-01-15".toList) ∧
    insertIntoDatabase noFaults emptyDB (parseLines demoDoc).1 =
      .committed demoDB ⟨1, 1, 0⟩ ∧
    demoLogRow.profit = demoLogRow.revenue - demoLogRow.cost := by
  refine ⟨by decide, by decide, ?_, ?_, by decide, by decide, by decide, ?_⟩
  · rw [Rat.mkRat_eq_div]
    norm_num
  · rw [← qSub_eq]
    decide
  · rw [← qSub_eq]
    decide

/-- C10: the `except (ValueError, IndexError)` branch of the data-row
handler is unreachable — every regex-matched row has three numeric captures that parse
— so a matched row under an open section is always appended, and the
warning counter is 0 on every document. -/
theorem claim_C10 :
    (∀ l d g2 g3 g4, searchDataRow l = some (d, g2, g3, g4) →
      ∃ v, parseNums g2 g3 g4 = some v) ∧
    (∀ ls : List Str, (parseLines ls).2 = 0) :=
  ⟨fun _ _ _ _ _ h => parseNums_of_searchDataRow h,
    fun ls => parseAux_warnings_zero ls none⟩

/-- Witness for C10: the demo data row's captures all parse. -/
theorem claim_C10_witness :
    ∃ v, parseNums ("8.50".toList) ("120.00".toList) ("450.00".toList) = some v :=
  claim_C10.1 rowLine ("01/15/2024".toList) ("8.50".toList) ("120.00".toList)
    ("450.00".toList) (by decide)
